import Mathlib

/-!
Verification of the marksheet batch-aggregation core.

This file gives a shallow embedding of the aggregation engine and batch
orchestrator of the marksheet-analytics application: the helper
`calculateAverageScore`, the aggregation function `calculateClassAverage`
and the orchestrator `handleAnalyze`, together with the data model
(`SubjectScore`, `AnalysisResult`, `ProcessingState`).

JavaScript numbers are modelled as rationals (`ℚ`), `Math.round` as
`⌊x + 1/2⌋` (which matches JavaScript's round-half-toward-positive-infinity
on exact values), the optional `fullMarks` field as `Option ℚ`, and the
falsy-defaulting expression `sub.fullMarks || 100` as a function that
returns `100` both when the field is absent and when it is `0` (JavaScript
treats `0` as falsy).  The JavaScript `Map` with its insertion-order
iteration is modelled as an association list in which `set` updates an
existing key in place and appends a fresh key at the end.  The string
operations `trim`, `toLowerCase` and the capitalisation of the first
character are modelled over the character list of a `String` using the
ASCII case functions `Char.toLower` / `Char.toUpper`.
-/

/-! ## Data model (types.ts) -/

/-- One subject's result for one student (`SubjectScore` in types.ts). -/
structure SubjectScore where
  subject : String
  score : ℚ
  fullMarks : Option ℚ
deriving Repr, DecidableEq

/-- One student's (or the synthetic class's) record (`AnalysisResult` in types.ts). -/
structure AnalysisResult where
  studentName : String
  subjects : List SubjectScore
  totalObtained : ℚ
  totalPossible : ℚ
  percentage : ℚ
  grade : String
  summary : String
  feedback : List String
deriving Repr, DecidableEq

/-- The status field of `ProcessingState` in types.ts. -/
inductive ProcessingStatus where
  | idle
  | uploading
  | processing
  | success
  | error
deriving Repr, DecidableEq

/-- `ProcessingState` in types.ts. -/
structure ProcessingState where
  status : ProcessingStatus
  message : Option String
deriving Repr, DecidableEq

/-! ## JavaScript primitives -/

/-- JavaScript `Math.round`: round half toward positive infinity. -/
def jsRound (x : ℚ) : ℤ := ⌊x + 1/2⌋

/-- JavaScript `s.trim()`: drop whitespace from both ends of a character list. -/
def jsTrimList (l : List Char) : List Char :=
  ((l.dropWhile Char.isWhitespace).reverse.dropWhile Char.isWhitespace).reverse

/-- JavaScript `s.trim()` on strings. -/
def jsTrim (s : String) : String := ⟨jsTrimList s.data⟩

/-- JavaScript `s.toLowerCase()` (ASCII case folding). -/
def jsToLower (s : String) : String := ⟨s.data.map Char.toLower⟩

/-- The normalization key of the aggregation engine: `sub.subject.trim().toLowerCase()`. -/
def normalizeKey (s : String) : String := jsToLower (jsTrim s)

/-- JavaScript `fm || 100`: `100` when the value is absent or `0` (falsy). -/
def jsOr100 (fm : Option ℚ) : ℚ :=
  match fm with
  | none => 100
  | some v => if v = 0 then 100 else v

/-- `key.charAt(0).toUpperCase() + key.slice(1)` — capitalise the first character. -/
def capitalizeFirst (s : String) : String :=
  match s.data with
  | [] => ""
  | c :: rest => ⟨c.toUpper :: rest⟩

/-! ## The average-score helper (calculateAverageScore) -/

/-- `calculateAverageScore` from the app component: `0` on an empty subject
list, otherwise `Math.round` of the mean of the `score` fields. -/
def calculateAverageScore (subjects : List SubjectScore) : ℚ :=
  if subjects.length = 0 then 0
  else
    let total := subjects.foldl (fun sum sub => sum + sub.score) 0
    (jsRound (total / subjects.length) : ℚ)

/-! ## The subject map (the JavaScript `Map` inside calculateClassAverage) -/

/-- Accumulator stored per normalization key: `{ total, count, fullMarks }`. -/
structure SubjectAcc where
  total : ℚ
  count : ℕ
  fullMarks : ℚ
deriving Repr, DecidableEq

/-- `Map.get`: the value of the first (and, by the map invariant, only)
entry with the given key. -/
def mapGet (m : List (String × SubjectAcc)) (k : String) : Option SubjectAcc :=
  (m.find? (fun p => p.1 = k)).map Prod.snd

/-- `Map.set`: update an existing key in place, append a fresh key at the end
(JavaScript `Map` insertion-order semantics). -/
def mapSet (m : List (String × SubjectAcc)) (k : String) (v : SubjectAcc) :
    List (String × SubjectAcc) :=
  match m with
  | [] => [(k, v)]
  | (k', v') :: rest => if k' = k then (k, v) :: rest else (k', v') :: mapSet rest k v

/-- The body of the inner `forEach` over `res.subjects`: look the normalized
key up (defaulting to a zero accumulator whose `fullMarks` starts at
`sub.fullMarks || 100`) and store the updated accumulator. -/
def processSubject (m : List (String × SubjectAcc)) (sub : SubjectScore) :
    List (String × SubjectAcc) :=
  let key := normalizeKey sub.subject
  let current := (mapGet m key).getD
    { total := 0, count := 0, fullMarks := jsOr100 sub.fullMarks }
  mapSet m key
    { total := current.total + sub.score
      count := current.count + 1
      fullMarks := max current.fullMarks (jsOr100 sub.fullMarks) }

/-- The nested `results.forEach (res => res.subjects.forEach ...)` walk that
builds the subject map. -/
def buildSubjectMap (results : List AnalysisResult) : List (String × SubjectAcc) :=
  results.foldl (fun m res => res.subjects.foldl processSubject m) []

/-! ## calculateClassAverage -/

/-- The averaged subject list built from the subject map (the
`Array.from(subjectMap.entries()).map(...)` step). -/
def avgSubjectsOf (results : List AnalysisResult) : List SubjectScore :=
  (buildSubjectMap results).map (fun kv =>
    { subject := capitalizeFirst kv.1
      score := (jsRound (kv.2.total / kv.2.count) : ℚ)
      fullMarks := some kv.2.fullMarks })

/-- The template for the aggregate's `summary` field. -/
def mkSummary (n : ℕ) (avg : ℚ) : String :=
  "This represents the aggregated performance of " ++ toString n ++
    " students. The class average score is " ++ toString avg ++ "."

/-- The fixed `feedback` list of the aggregate record. -/
def classFeedback : List String :=
  ["Review subjects with averages below 60 for curriculum adjustments.",
   "Identify top performers for advanced modules.",
   "Organize remedial sessions for students significantly below the class average."]

/-- `calculateClassAverage`: throws (`Except.error`) on an empty input list,
otherwise folds all results into one synthetic class-average record. -/
def calculateClassAverage (results : List AnalysisResult) :
    Except String AnalysisResult :=
  if results.length = 0 then .error "No results to average"
  else
    let totalObtainedSum := results.foldl (fun s res => s + res.totalObtained) 0
    let totalPossibleSum := results.foldl (fun s res => s + res.totalPossible) 0
    let avgSubjects := avgSubjectsOf results
    let avgPercentage := calculateAverageScore avgSubjects
    .ok
      { studentName := "Class Average"
        subjects := avgSubjects
        totalObtained := (jsRound (totalObtainedSum / results.length) : ℚ)
        totalPossible := (jsRound (totalPossibleSum / results.length) : ℚ)
        percentage := avgPercentage
        grade := ""
        summary := mkSummary results.length avgPercentage
        feedback := classFeedback }

/-! ## The batch orchestrator (handleAnalyze) -/

/-- One settled extraction call: the `.then/.catch` wrapper in `handleAnalyze`
turns every `analyzeMarksheet` promise into either a fulfilled value or a
captured rejection reason. -/
inductive Outcome where
  | fulfilled (value : AnalysisResult)
  | rejected (reason : String)
deriving Repr, DecidableEq

/-- The `outcomes.forEach` loop: push each fulfilled value, count each
rejection. -/
def collectOutcomes (outcomes : List Outcome) : List AnalysisResult × ℕ :=
  outcomes.foldl
    (fun acc o =>
      match o with
      | .fulfilled v => (acc.1 ++ [v], acc.2)
      | .rejected _ => (acc.1, acc.2 + 1))
    ([], 0)

/-- The component state touched by `handleAnalyze` (React `useState` cells). -/
structure AppState where
  results : List AnalysisResult
  activeResultIndex : ℤ
  classAverageData : Option AnalysisResult
  processingState : ProcessingState
deriving Repr, DecidableEq

/-- The mixed-outcome advisory message. -/
def mixedOutcomeMessage (successCount failureCount : ℕ) : String :=
  "Processed " ++ toString successCount ++ " documents. " ++
    toString failureCount ++ " failed."

/-- The batch-level failure message. -/
def batchFailureMessage : String :=
  "Failed to analyze documents. Please check image quality and try again."

/-- `handleAnalyze`, parameterised by the aggregation function it calls, as a
transformer of the component state: reset the result cells, partition the
settled outcomes, and either publish the successes together with the
aggregate (success state) or report a batch-level error.  A `throw` inside
the aggregation function lands in the surrounding `catch`, which stores the
error message (line-for-line the `try/catch` of the source). -/
def handleAnalyzeWith
    (aggregate : List AnalysisResult → Except String AnalysisResult)
    (s0 : AppState) (outcomes : List Outcome) : AppState :=
  let s1 : AppState :=
    { s0 with
      processingState := ⟨.processing, some "Initializing batch analysis..."⟩
      results := []
      classAverageData := none }
  let collected := collectOutcomes outcomes
  let successfulResults := collected.1
  let failureCount := collected.2
  if successfulResults.length > 0 then
    match aggregate successfulResults with
    | .ok average =>
      { s1 with
        results := successfulResults
        classAverageData := some average
        activeResultIndex := -1
        processingState :=
          ⟨.success,
            if failureCount > 0 then
              some (mixedOutcomeMessage successfulResults.length failureCount)
            else none⟩ }
    | .error msg =>
      { s1 with
        results := successfulResults
        processingState :=
          ⟨.error,
            some (if msg = "" then "Batch processing failed unexpectedly." else msg)⟩ }
  else
    { s1 with processingState := ⟨.error, some batchFailureMessage⟩ }

/-- The orchestrator of the source, with its actual aggregation function. -/
def handleAnalyze : AppState → List Outcome → AppState :=
  handleAnalyzeWith calculateClassAverage

/-! ## Specification-side functions used to state the claims -/

/-- The fulfilled values of a list of settled outcomes, in input order. -/
def successesOf : List Outcome → List AnalysisResult
  | [] => []
  | .fulfilled v :: rest => v :: successesOf rest
  | .rejected _ :: rest => successesOf rest

/-- The number of rejected outcomes. -/
def failuresOf : List Outcome → ℕ
  | [] => 0
  | .fulfilled _ :: rest => failuresOf rest
  | .rejected _ :: rest => failuresOf rest + 1

/-- All subject occurrences of a result list, walked in order. -/
def allSubjects : List AnalysisResult → List SubjectScore
  | [] => []
  | res :: rest => res.subjects ++ allSubjects rest

/-- The subject occurrences contributing to a given normalization key. -/
def occurrencesAt (results : List AnalysisResult) (k : String) : List SubjectScore :=
  (allSubjects results).filter (fun sub => normalizeKey sub.subject = k)

/-- Maximum accumulation over an optional running value. -/
def omax (acc : Option ℚ) (x : ℚ) : Option ℚ :=
  match acc with
  | none => some x
  | some m => some (max m x)

/-- Maximum of a list of rationals (`none` on the empty list). -/
def listMaxQ (xs : List ℚ) : Option ℚ := xs.foldl omax none

/-- The default the specification's C2 claim describes literally: the
contributor's `fullMarks` whenever the field is present, `100` only when it
is absent. -/
def specDefault (fm : Option ℚ) : ℚ := fm.getD 100

/-- The keys of the association-list map, in insertion order. -/
def keysOf (m : List (String × SubjectAcc)) : List String := m.map Prod.fst

/-- The update `calculateClassAverage` performs on one (optional) accumulator
for one subject occurrence. -/
def stepAcc (acc : Option SubjectAcc) (sub : SubjectScore) : SubjectAcc :=
  let current := acc.getD { total := 0, count := 0, fullMarks := jsOr100 sub.fullMarks }
  { total := current.total + sub.score
    count := current.count + 1
    fullMarks := max current.fullMarks (jsOr100 sub.fullMarks) }

/-- `stepAcc` wrapped into an always-defined optional accumulator. -/
def stepOcc (acc : Option SubjectAcc) (sub : SubjectScore) : Option SubjectAcc :=
  some (stepAcc acc sub)

/-- Folding all occurrences of one key into an optional accumulator. -/
def foldOcc (acc : Option SubjectAcc) (subs : List SubjectScore) : Option SubjectAcc :=
  subs.foldl stepOcc acc


/-! ## Character-level lemmas about the ASCII case functions -/

theorem charToNat_ofNat {n : ℕ} (h : n.isValidChar) : (Char.ofNat n).toNat = n := by
  rw [Char.ofNat, dif_pos h]
  rfl

theorem char_eq_of_toNat_eq {c d : Char} (h : c.toNat = d.toNat) : c = d := by
  have h2 := congrArg Char.ofNat h
  rwa [Char.ofNat_toNat, Char.ofNat_toNat] at h2

theorem char_isWhitespace_iff (c : Char) :
    c.isWhitespace = true ↔
      (c.toNat = 32 ∨ c.toNat = 9 ∨ c.toNat = 13 ∨ c.toNat = 10) := by
  constructor
  · intro hb
    rw [Char.isWhitespace] at hb
    simp only [Bool.or_eq_true, decide_eq_true_eq] at hb
    rcases hb with ((rfl | rfl) | rfl) | rfl <;> simp [Char.toNat]
  · rintro (h | h | h | h) <;>
      · have : c = Char.ofNat c.toNat := (Char.ofNat_toNat c).symm
        rw [h] at this
        subst this
        decide

theorem char_toLower_toNat_of_upper {c : Char} (h : 65 ≤ c.toNat ∧ c.toNat ≤ 90) :
    c.toLower = Char.ofNat (c.toNat + 32) ∧ (c.toLower).toNat = c.toNat + 32 := by
  have hv : (c.toNat + 32).isValidChar := Or.inl (by omega)
  have h1 : c.toLower = Char.ofNat (c.toNat + 32) := by
    rw [Char.toLower, if_pos h]
  exact ⟨h1, by rw [h1, charToNat_ofNat hv]⟩

theorem char_toUpper_toNat_of_lower {c : Char} (h : 97 ≤ c.toNat ∧ c.toNat ≤ 122) :
    c.toUpper = Char.ofNat (c.toNat - 32) ∧ (c.toUpper).toNat = c.toNat - 32 := by
  have hv : (c.toNat - 32).isValidChar := Or.inl (by omega)
  have h1 : c.toUpper = Char.ofNat (c.toNat - 32) := by
    rw [Char.toUpper, if_pos h]
  exact ⟨h1, by rw [h1, charToNat_ofNat hv]⟩

theorem char_toLower_toUpper (c : Char) : c.toUpper.toLower = c.toLower := by
  by_cases h : 97 ≤ c.toNat ∧ c.toNat ≤ 122
  · obtain ⟨h1, h2⟩ := char_toUpper_toNat_of_lower h
    have h3 : 65 ≤ c.toUpper.toNat ∧ c.toUpper.toNat ≤ 90 := by omega
    obtain ⟨h4, h5⟩ := char_toLower_toNat_of_upper h3
    have h6 : c.toLower = c := by
      rw [Char.toLower, if_neg (by omega)]
    rw [h4, h2, h6]
    have : c.toNat - 32 + 32 = c.toNat := by omega
    rw [this, Char.ofNat_toNat]
  · rw [Char.toUpper, if_neg h]

theorem char_toLower_idem (c : Char) : c.toLower.toLower = c.toLower := by
  by_cases h : 65 ≤ c.toNat ∧ c.toNat ≤ 90
  · obtain ⟨h1, h2⟩ := char_toLower_toNat_of_upper h
    rw [Char.toLower]
    rw [if_neg (by omega : ¬(c.toLower.toNat ≥ 65 ∧ c.toLower.toNat ≤ 90))]
  · have hc : c.toLower = c := by rw [Char.toLower, if_neg h]
    rw [hc]
    exact hc

theorem char_ws_toLower (c : Char) : c.toLower.isWhitespace = c.isWhitespace := by
  by_cases h : 65 ≤ c.toNat ∧ c.toNat ≤ 90
  · obtain ⟨h1, h2⟩ := char_toLower_toNat_of_upper h
    have hws1 : c.toLower.isWhitespace = false := by
      cases hb : c.toLower.isWhitespace
      · rfl
      · have := (char_isWhitespace_iff _).mp hb
        omega
    have hws2 : c.isWhitespace = false := by
      cases hb : c.isWhitespace
      · rfl
      · have := (char_isWhitespace_iff _).mp hb
        omega
    rw [hws1, hws2]
  · rw [Char.toLower, if_neg h]

theorem char_ws_toUpper (c : Char) : c.toUpper.isWhitespace = c.isWhitespace := by
  by_cases h : 97 ≤ c.toNat ∧ c.toNat ≤ 122
  · obtain ⟨h1, h2⟩ := char_toUpper_toNat_of_lower h
    have hws1 : c.toUpper.isWhitespace = false := by
      cases hb : c.toUpper.isWhitespace
      · rfl
      · have := (char_isWhitespace_iff _).mp hb
        omega
    have hws2 : c.isWhitespace = false := by
      cases hb : c.isWhitespace
      · rfl
      · have := (char_isWhitespace_iff _).mp hb
        omega
    rw [hws1, hws2]
  · rw [Char.toUpper, if_neg h]

/-! ## Lemmas about trimming and the normalization key -/

theorem head?_dropWhile {α : Type} (p : α → Bool) (l : List α) :
    ∀ a ∈ (l.dropWhile p).head?, p a = false := by
  induction l with
  | nil => simp
  | cons c t ih =>
    intro a ha
    rw [List.dropWhile_cons] at ha
    by_cases h : p c = true
    · rw [if_pos h] at ha
      exact ih a ha
    · rw [if_neg h] at ha
      simp only [List.head?_cons, Option.mem_def, Option.some.injEq] at ha
      subst ha
      exact Bool.eq_false_iff.mpr h

theorem dropWhile_eq_self_of_head {α : Type} (p : α → Bool) (l : List α)
    (h : ∀ a ∈ l.head?, p a = false) : l.dropWhile p = l := by
  cases l with
  | nil => rfl
  | cons c t =>
    have hc : p c = false := h c (by simp)
    rw [List.dropWhile_cons, if_neg (by simp [hc])]

theorem getLast?_dropWhile {α : Type} (p : α → Bool) (l : List α)
    (h : l.dropWhile p ≠ []) : (l.dropWhile p).getLast? = l.getLast? := by
  induction l with
  | nil => simp at h
  | cons c t ih =>
    by_cases hc : p c = true
    · rw [List.dropWhile_cons, if_pos hc] at h ⊢
      rw [ih h]
      cases t with
      | nil => simp at h
      | cons d t' => rw [List.getLast?_cons_cons]
    · rw [List.dropWhile_cons, if_neg hc]

theorem jsTrimList_head (l : List Char) :
    ∀ c ∈ (jsTrimList l).head?, c.isWhitespace = false := by
  intro c hc
  unfold jsTrimList at hc
  rw [List.head?_reverse] at hc
  by_cases hemp :
      (l.dropWhile Char.isWhitespace).reverse.dropWhile Char.isWhitespace = []
  · rw [hemp] at hc
    simp at hc
  · rw [getLast?_dropWhile _ _ hemp, List.getLast?_reverse] at hc
    exact head?_dropWhile _ _ c hc

theorem jsTrimList_getLast (l : List Char) :
    ∀ c ∈ (jsTrimList l).getLast?, c.isWhitespace = false := by
  intro c hc
  unfold jsTrimList at hc
  rw [List.getLast?_reverse] at hc
  exact head?_dropWhile _ _ c hc

theorem jsTrimList_eq_self (l : List Char)
    (h1 : ∀ c ∈ l.head?, c.isWhitespace = false)
    (h2 : ∀ c ∈ l.getLast?, c.isWhitespace = false) :
    jsTrimList l = l := by
  unfold jsTrimList
  rw [dropWhile_eq_self_of_head _ _ h1]
  have h3 : l.reverse.dropWhile Char.isWhitespace = l.reverse := by
    apply dropWhile_eq_self_of_head
    intro a ha
    rw [List.head?_reverse] at ha
    exact h2 a ha
  rw [h3, List.reverse_reverse]

theorem jsTrimList_map_toLower (l : List Char) :
    jsTrimList (l.map Char.toLower) = (jsTrimList l).map Char.toLower := by
  have hp : (Char.isWhitespace ∘ Char.toLower) = Char.isWhitespace :=
    funext char_ws_toLower
  unfold jsTrimList
  rw [List.dropWhile_map, hp, ← List.map_reverse, List.dropWhile_map, hp,
    ← List.map_reverse]

theorem normalizeKey_data (s : String) :
    (normalizeKey s).data = (jsTrimList s.data).map Char.toLower := rfl

/-- The display-name derivation is inverted by normalization: capitalizing the
first character of an already-normalized key and normalizing again gives the
key back. -/
theorem normalizeKey_capitalizeFirst (s : String) :
    normalizeKey (capitalizeFirst (normalizeKey s)) = normalizeKey s := by
  cases hL : jsTrimList s.data with
  | nil =>
    have hx : normalizeKey s = ⟨([] : List Char)⟩ :=
      String.ext (by rw [normalizeKey_data, hL]; rfl)
    rw [hx]
    decide
  | cons c t =>
    have h_head : c.isWhitespace = false :=
      jsTrimList_head s.data c (by rw [hL]; rfl)
    have h_last : ∀ a ∈ (c :: t).getLast?, a.isWhitespace = false := by
      intro a ha
      apply jsTrimList_getLast s.data
      rw [hL]
      exact ha
    have hx : normalizeKey s = ⟨c.toLower :: t.map Char.toLower⟩ :=
      String.ext (by rw [normalizeKey_data, hL]; rfl)
    have hcap : capitalizeFirst ⟨c.toLower :: t.map Char.toLower⟩ =
        ⟨c.toLower.toUpper :: t.map Char.toLower⟩ := rfl
    have hwsu : c.toLower.toUpper.isWhitespace = false := by
      rw [char_ws_toUpper, char_ws_toLower]
      exact h_head
    have htrim : jsTrimList (c.toLower.toUpper :: t.map Char.toLower) =
        c.toLower.toUpper :: t.map Char.toLower := by
      apply jsTrimList_eq_self
      · intro a ha
        simp only [List.head?_cons, Option.mem_def, Option.some.injEq] at ha
        subst ha
        exact hwsu
      · intro a ha
        cases t with
        | nil =>
          simp only [List.map_nil, List.getLast?_singleton, Option.mem_def,
            Option.some.injEq] at ha
          subst ha
          exact hwsu
        | cons d t' =>
          rw [List.map_cons, List.getLast?_cons_cons, ← List.map_cons,
            List.getLast?_map] at ha
          simp only [Option.mem_def, Option.map_eq_some'] at ha
          obtain ⟨b, hb, rfl⟩ := ha
          rw [char_ws_toLower]
          apply h_last
          rw [List.getLast?_cons_cons]
          exact hb
    have hmap : (c.toLower.toUpper :: t.map Char.toLower).map Char.toLower =
        c.toLower :: t.map Char.toLower := by
      rw [List.map_cons, char_toLower_toUpper, char_toLower_idem, List.map_map]
      have hmm : List.map (Char.toLower ∘ Char.toLower) t = List.map Char.toLower t :=
        List.map_congr_left (fun a _ => char_toLower_idem a)
      rw [hmm]
    rw [hx, hcap]
    apply String.ext
    rw [normalizeKey_data]
    show ((jsTrimList (c.toLower.toUpper :: t.map Char.toLower)).map Char.toLower) =
      (⟨c.toLower :: t.map Char.toLower⟩ : String).data
    rw [htrim, hmap]

/-! ## Concrete fixtures used in witnesses and counterexamples -/

/-- A one-subject student record. -/
def wStudent : AnalysisResult :=
  { studentName := "W"
    subjects := [{ subject := "m", score := 10, fullMarks := some 20 }]
    totalObtained := 10
    totalPossible := 20
    percentage := 50
    grade := ""
    summary := ""
    feedback := [] }

/-- A second one-subject student record, on a different subject. -/
def wStudent2 : AnalysisResult :=
  { studentName := "X"
    subjects := [{ subject := "s", score := 30, fullMarks := none }]
    totalObtained := 30
    totalPossible := 100
    percentage := 30
    grade := ""
    summary := ""
    feedback := [] }

/-- The aggregate of `[wStudent]`. -/
def wOut : AnalysisResult :=
  { studentName := "Class Average"
    subjects := [{ subject := "M", score := 10, fullMarks := some 20 }]
    totalObtained := 10
    totalPossible := 20
    percentage := 10
    grade := ""
    summary := mkSummary 1 10
    feedback := classFeedback }

/-- The aggregate of `[wStudent, wStudent2]`. -/
def wOutA : AnalysisResult :=
  { studentName := "Class Average"
    subjects := [{ subject := "M", score := 10, fullMarks := some 20 },
                 { subject := "S", score := 30, fullMarks := some 100 }]
    totalObtained := 20
    totalPossible := 60
    percentage := 20
    grade := ""
    summary := mkSummary 2 20
    feedback := classFeedback }

/-- The aggregate of `[wStudent2, wStudent]` (subjects in the other first-seen order). -/
def wOutB : AnalysisResult :=
  { studentName := "Class Average"
    subjects := [{ subject := "S", score := 30, fullMarks := some 100 },
                 { subject := "M", score := 10, fullMarks := some 20 }]
    totalObtained := 20
    totalPossible := 60
    percentage := 20
    grade := ""
    summary := mkSummary 2 20
    feedback := classFeedback }

/-- First student of the end-to-end scenario of C4. -/
def c4Student1 : AnalysisResult :=
  { studentName := "Student One"
    subjects := [{ subject := "Math", score := 80, fullMarks := some 100 },
                 { subject := "Science", score := 90, fullMarks := some 100 }]
    totalObtained := 170
    totalPossible := 200
    percentage := 85
    grade := "A"
    summary := ""
    feedback := [] }

/-- Second student of the end-to-end scenario of C4 (case variation, missing
`fullMarks` on the first subject). -/
def c4Student2 : AnalysisResult :=
  { studentName := "Student Two"
    subjects := [{ subject := "math", score := 60, fullMarks := none },
                 { subject := "Science", score := 70, fullMarks := some 100 }]
    totalObtained := 130
    totalPossible := 200
    percentage := 65
    grade := "B"
    summary := ""
    feedback := [] }

/-- A student whose record carries a present-but-zero `fullMarks`. -/
def c2Student : AnalysisResult :=
  { studentName := "Zero"
    subjects := [{ subject := "math", score := 10, fullMarks := some 0 },
                 { subject := "math", score := 20, fullMarks := some 50 }]
    totalObtained := 30
    totalPossible := 50
    percentage := 60
    grade := ""
    summary := ""
    feedback := [] }

/-- The score list of the C9 example. -/
def c9Scores : List SubjectScore :=
  [{ subject := "physics", score := 70, fullMarks := none },
   { subject := "chemistry", score := 85, fullMarks := none },
   { subject := "biology", score := 90, fullMarks := none }]

/-- The idle component state before a batch is submitted. -/
def wInitState : AppState :=
  { results := []
    activeResultIndex := -1
    classAverageData := none
    processingState := { status := .idle, message := none } }

/-- A mixed batch: one success, one captured failure. -/
def wOutcomes : List Outcome := [.fulfilled wStudent, .rejected "bad image"]

/-! ## Lemmas about the association-list map -/

theorem mapGet_cons (p : String × SubjectAcc) (m : List (String × SubjectAcc))
    (k : String) :
    mapGet (p :: m) k = if p.1 = k then some p.2 else mapGet m k := by
  by_cases h : p.1 = k
  · rw [mapGet, List.find?_cons_of_pos _ (by simp [h]), if_pos h]
    rfl
  · rw [mapGet, List.find?_cons_of_neg _ (by simp [h]), if_neg h]
    rfl

theorem mapGet_mapSet (m : List (String × SubjectAcc)) (k k' : String)
    (v : SubjectAcc) :
    mapGet (mapSet m k v) k' = if k' = k then some v else mapGet m k' := by
  induction m with
  | nil =>
    show mapGet [(k, v)] k' = _
    rw [mapGet_cons]
    by_cases h : k' = k
    · rw [if_pos h.symm, if_pos h]
    · rw [if_neg (fun hh => h hh.symm), if_neg h]
  | cons p rest ih =>
    obtain ⟨k2, v2⟩ := p
    by_cases h1 : k2 = k
    · have hset : mapSet ((k2, v2) :: rest) k v = (k, v) :: rest := by
        show (if k2 = k then (k, v) :: rest else (k2, v2) :: mapSet rest k v) = _
        rw [if_pos h1]
      rw [hset, mapGet_cons, mapGet_cons]
      by_cases h2 : k' = k
      · rw [if_pos h2.symm, if_pos h2]
      · rw [if_neg (fun hh => h2 hh.symm), if_neg h2,
          if_neg (fun hh : k2 = k' => h2 (hh.symm.trans h1))]
    · have hset : mapSet ((k2, v2) :: rest) k v = (k2, v2) :: mapSet rest k v := by
        show (if k2 = k then (k, v) :: rest else (k2, v2) :: mapSet rest k v) = _
        rw [if_neg h1]
      rw [hset, mapGet_cons, ih, mapGet_cons]
      by_cases h2 : k' = k
      · rw [if_pos h2, if_pos h2,
          if_neg (fun hh : k2 = k' => h1 (hh.trans h2))]
      · rw [if_neg h2, if_neg h2]

theorem mem_keys_iff_isSome (m : List (String × SubjectAcc)) (k : String) :
    k ∈ keysOf m ↔ (mapGet m k).isSome := by
  induction m with
  | nil => simp [keysOf, mapGet]
  | cons p rest ih =>
    rw [mapGet_cons]
    by_cases h : p.1 = k
    · rw [if_pos h]
      simp [keysOf, h.symm]
    · rw [if_neg h]
      unfold keysOf at ih ⊢
      simp only [List.map_cons, List.mem_cons]
      rw [← ih]
      constructor
      · rintro (rfl | hh)
        · exact absurd rfl h
        · exact hh
      · exact Or.inr

theorem mem_mapSet {m : List (String × SubjectAcc)} {k : String} {v : SubjectAcc}
    {p : String × SubjectAcc} (h : p ∈ mapSet m k v) : p ∈ m ∨ p = (k, v) := by
  induction m with
  | nil =>
    simp only [mapSet, List.mem_singleton] at h
    exact Or.inr h
  | cons q rest ih =>
    obtain ⟨k2, v2⟩ := q
    by_cases h1 : k2 = k
    · rw [show mapSet ((k2, v2) :: rest) k v =
        (if k2 = k then (k, v) :: rest else (k2, v2) :: mapSet rest k v) from rfl,
        if_pos h1] at h
      rcases List.mem_cons.mp h with rfl | hm
      · exact Or.inr rfl
      · exact Or.inl (List.mem_cons_of_mem _ hm)
    · rw [show mapSet ((k2, v2) :: rest) k v =
        (if k2 = k then (k, v) :: rest else (k2, v2) :: mapSet rest k v) from rfl,
        if_neg h1] at h
      rcases List.mem_cons.mp h with rfl | hm
      · exact Or.inl (List.mem_cons_self _ _)
      · rcases ih hm with hm' | rfl
        · exact Or.inl (List.mem_cons_of_mem _ hm')
        · exact Or.inr rfl

theorem nodup_keys_mapSet (m : List (String × SubjectAcc)) (k : String)
    (v : SubjectAcc) (h : (keysOf m).Nodup) : (keysOf (mapSet m k v)).Nodup := by
  induction m with
  | nil => simp [mapSet, keysOf]
  | cons p rest ih =>
    obtain ⟨k2, v2⟩ := p
    rw [keysOf, List.map_cons, List.nodup_cons] at h
    by_cases h1 : k2 = k
    · rw [show mapSet ((k2, v2) :: rest) k v =
        (if k2 = k then (k, v) :: rest else (k2, v2) :: mapSet rest k v) from rfl,
        if_pos h1]
      rw [keysOf, List.map_cons, List.nodup_cons]
      exact ⟨h1 ▸ h.1, h.2⟩
    · rw [show mapSet ((k2, v2) :: rest) k v =
        (if k2 = k then (k, v) :: rest else (k2, v2) :: mapSet rest k v) from rfl,
        if_neg h1]
      rw [keysOf, List.map_cons, List.nodup_cons]
      refine ⟨?_, ih h.2⟩
      intro hmem
      rw [show (List.map Prod.fst (mapSet rest k v)) = keysOf (mapSet rest k v)
        from rfl, mem_keys_iff_isSome, mapGet_mapSet, if_neg h1] at hmem
      rw [← mem_keys_iff_isSome] at hmem
      exact h.1 hmem

/-! ## The per-key accumulator fold -/

theorem processSubject_def (m : List (String × SubjectAcc)) (sub : SubjectScore) :
    processSubject m sub =
      mapSet m (normalizeKey sub.subject)
        (stepAcc (mapGet m (normalizeKey sub.subject)) sub) := rfl

theorem mapGet_processSubject (m : List (String × SubjectAcc)) (sub : SubjectScore)
    (k : String) :
    mapGet (processSubject m sub) k =
      if normalizeKey sub.subject = k then some (stepAcc (mapGet m k) sub)
      else mapGet m k := by
  rw [processSubject_def, mapGet_mapSet]
  by_cases h : normalizeKey sub.subject = k
  · rw [if_pos h.symm, if_pos h, h]
  · rw [if_neg (fun hh => h hh.symm), if_neg h]

theorem mapGet_foldl_processSubject (subs : List SubjectScore)
    (m : List (String × SubjectAcc)) (k : String) :
    mapGet (subs.foldl processSubject m) k =
      foldOcc (mapGet m k) (subs.filter (fun sub => normalizeKey sub.subject = k)) := by
  induction subs generalizing m with
  | nil => rfl
  | cons sub rest ih =>
    rw [List.foldl_cons, ih, mapGet_processSubject]
    by_cases h : normalizeKey sub.subject = k
    · rw [if_pos h, List.filter_cons_of_pos (by simp [h])]
      rfl
    · rw [if_neg h, List.filter_cons_of_neg (by simp [h])]

theorem buildSubjectMap_eq (results : List AnalysisResult) :
    buildSubjectMap results = (allSubjects results).foldl processSubject [] := by
  suffices h : ∀ m, results.foldl (fun m res => res.subjects.foldl processSubject m) m
      = (allSubjects results).foldl processSubject m from h []
  induction results with
  | nil => intro m; rfl
  | cons r rest ih =>
    intro m
    rw [List.foldl_cons, ih, show allSubjects (r :: rest) =
      r.subjects ++ allSubjects rest from rfl, List.foldl_append]

theorem mapGet_buildSubjectMap (results : List AnalysisResult) (k : String) :
    mapGet (buildSubjectMap results) k = foldOcc none (occurrencesAt results k) := by
  rw [buildSubjectMap_eq, mapGet_foldl_processSubject]
  rfl

theorem nodup_keys_buildSubjectMap (results : List AnalysisResult) :
    (keysOf (buildSubjectMap results)).Nodup := by
  rw [buildSubjectMap_eq]
  suffices h : ∀ (subs : List SubjectScore) (m : List (String × SubjectAcc)),
      (keysOf m).Nodup → (keysOf (subs.foldl processSubject m)).Nodup from
    h _ [] (by simp [keysOf])
  intro subs
  induction subs with
  | nil => intro m hm; exact hm
  | cons s t ih =>
    intro m hm
    rw [List.foldl_cons]
    exact ih _ (by rw [processSubject_def]; exact nodup_keys_mapSet _ _ _ hm)

/-! ## Component facts about the accumulator fold -/

theorem stepAcc_some (a : SubjectAcc) (sub : SubjectScore) :
    stepAcc (some a) sub =
      { total := a.total + sub.score
        count := a.count + 1
        fullMarks := max a.fullMarks (jsOr100 sub.fullMarks) } := rfl

theorem stepAcc_none (sub : SubjectScore) :
    stepAcc none sub =
      { total := 0 + sub.score
        count := 0 + 1
        fullMarks := max (jsOr100 sub.fullMarks) (jsOr100 sub.fullMarks) } := rfl

theorem foldOcc_cons (acc : Option SubjectAcc) (s : SubjectScore)
    (t : List SubjectScore) :
    foldOcc acc (s :: t) = foldOcc (some (stepAcc acc s)) t := rfl

theorem foldOcc_some_eq (subs : List SubjectScore) (a : SubjectAcc) :
    foldOcc (some a) subs =
      some (subs.foldl (fun b sub => stepAcc (some b) sub) a) := by
  induction subs generalizing a with
  | nil => rfl
  | cons s t ih => rw [foldOcc_cons, ih, List.foldl_cons]

theorem foldOcc_none_eq_none_iff (subs : List SubjectScore) :
    foldOcc none subs = none ↔ subs = [] := by
  cases subs with
  | nil => simp [foldOcc]
  | cons s t =>
    rw [foldOcc_cons, foldOcc_some_eq]
    simp

theorem foldl_stepAcc_count (subs : List SubjectScore) (a : SubjectAcc) :
    (subs.foldl (fun b sub => stepAcc (some b) sub) a).count = a.count + subs.length := by
  induction subs generalizing a with
  | nil => simp
  | cons s t ih =>
    rw [List.foldl_cons, ih, stepAcc_some]
    simp only [List.length_cons]
    omega

theorem foldl_stepAcc_total (subs : List SubjectScore) (a : SubjectAcc) :
    (subs.foldl (fun b sub => stepAcc (some b) sub) a).total =
      a.total + (subs.map SubjectScore.score).sum := by
  induction subs generalizing a with
  | nil => simp
  | cons s t ih =>
    rw [List.foldl_cons, ih, stepAcc_some, List.map_cons, List.sum_cons]
    simp only []
    ring

theorem foldl_stepAcc_fullMarks (subs : List SubjectScore) (a : SubjectAcc) :
    (subs.foldl (fun b sub => stepAcc (some b) sub) a).fullMarks =
      (subs.map (fun sub => jsOr100 sub.fullMarks)).foldl max a.fullMarks := by
  induction subs generalizing a with
  | nil => rfl
  | cons s t ih =>
    rw [List.foldl_cons, ih, stepAcc_some, List.map_cons, List.foldl_cons]

/-! ## Maximum lemmas -/

theorem foldl_omax_some (xs : List ℚ) (x : ℚ) :
    xs.foldl omax (some x) = some (xs.foldl max x) := by
  induction xs generalizing x with
  | nil => rfl
  | cons y t ih =>
    rw [List.foldl_cons, List.foldl_cons]
    exact ih (max x y)

theorem listMaxQ_cons (x : ℚ) (xs : List ℚ) :
    listMaxQ (x :: xs) = some (xs.foldl max x) := by
  rw [listMaxQ, List.foldl_cons]
  exact foldl_omax_some xs x

theorem le_foldl_max (xs : List ℚ) (a : ℚ) : a ≤ xs.foldl max a := by
  induction xs generalizing a with
  | nil => exact le_refl a
  | cons x t ih =>
    rw [List.foldl_cons]
    exact le_trans (le_max_left a x) (ih (max a x))

theorem mem_le_foldl_max (xs : List ℚ) (a : ℚ) : ∀ x ∈ xs, x ≤ xs.foldl max a := by
  induction xs generalizing a with
  | nil => simp
  | cons y t ih =>
    intro x hx
    rw [List.foldl_cons]
    rcases List.mem_cons.mp hx with rfl | hx'
    · exact le_trans (le_max_right a x) (le_foldl_max t _)
    · exact ih (max a y) x hx'

/-! ## Commutativity of the accumulator step -/

instance : RightCommutative stepOcc := by
  refine ⟨fun b s t => ?_⟩
  cases b with
  | none =>
    show some (stepAcc (some (stepAcc none s)) t) = some (stepAcc (some (stepAcc none t)) s)
    rw [stepAcc_some, stepAcc_some, stepAcc_none, stepAcc_none]
    simp only [Option.some.injEq, SubjectAcc.mk.injEq]
    refine ⟨by ring, trivial, ?_⟩
    rw [max_self, max_self, max_comm]
  | some a =>
    show some (stepAcc (some (stepAcc (some a) s)) t) =
      some (stepAcc (some (stepAcc (some a) t)) s)
    rw [stepAcc_some, stepAcc_some, stepAcc_some, stepAcc_some]
    simp only [Option.some.injEq, SubjectAcc.mk.injEq]
    refine ⟨by ring, trivial, ?_⟩
    rw [sup_right_comm]

/-! ## Structural invariants of the subject map -/

theorem count_pos_buildSubjectMap (results : List AnalysisResult) :
    ∀ kv ∈ buildSubjectMap results, 1 ≤ kv.2.count := by
  rw [buildSubjectMap_eq]
  suffices h : ∀ (subs : List SubjectScore) (m : List (String × SubjectAcc)),
      (∀ kv ∈ m, 1 ≤ kv.2.count) →
      ∀ kv ∈ subs.foldl processSubject m, 1 ≤ kv.2.count from h _ [] (by simp)
  intro subs
  induction subs with
  | nil => intro m hm; exact hm
  | cons s t ih =>
    intro m hm
    rw [List.foldl_cons]
    apply ih
    intro kv hkv
    rw [processSubject_def] at hkv
    rcases mem_mapSet hkv with hmem | rfl
    · exact hm kv hmem
    · show 1 ≤ (stepAcc (mapGet m (normalizeKey s.subject)) s).count
      cases hacc : mapGet m (normalizeKey s.subject) with
      | none =>
        simp only [stepAcc_none]
        omega
      | some a =>
        simp only [stepAcc_some]
        omega

theorem key_image_buildSubjectMap (results : List AnalysisResult) :
    ∀ kv ∈ buildSubjectMap results, ∃ s : String, kv.1 = normalizeKey s := by
  rw [buildSubjectMap_eq]
  suffices h : ∀ (subs : List SubjectScore) (m : List (String × SubjectAcc)),
      (∀ kv ∈ m, ∃ s : String, kv.1 = normalizeKey s) →
      ∀ kv ∈ subs.foldl processSubject m, ∃ s : String, kv.1 = normalizeKey s from
    h _ [] (by simp)
  intro subs
  induction subs with
  | nil => intro m hm; exact hm
  | cons s t ih =>
    intro m hm
    rw [List.foldl_cons]
    apply ih
    intro kv hkv
    rw [processSubject_def] at hkv
    rcases mem_mapSet hkv with hmem | rfl
    · exact hm kv hmem
    · exact ⟨s.subject, rfl⟩

/-! ## Sum folds of the aggregate -/

theorem foldl_add_score (subs : List SubjectScore) (init : ℚ) :
    subs.foldl (fun sum sub => sum + sub.score) init =
      init + (subs.map SubjectScore.score).sum := by
  induction subs generalizing init with
  | nil => simp
  | cons s t ih =>
    rw [List.foldl_cons, ih, List.map_cons, List.sum_cons]
    ring

theorem foldl_add_totalObtained (results : List AnalysisResult) (init : ℚ) :
    results.foldl (fun s res => s + res.totalObtained) init =
      init + (results.map AnalysisResult.totalObtained).sum := by
  induction results generalizing init with
  | nil => simp
  | cons r t ih =>
    rw [List.foldl_cons, ih, List.map_cons, List.sum_cons]
    ring

theorem foldl_add_totalPossible (results : List AnalysisResult) (init : ℚ) :
    results.foldl (fun s res => s + res.totalPossible) init =
      init + (results.map AnalysisResult.totalPossible).sum := by
  induction results generalizing init with
  | nil => simp
  | cons r t ih =>
    rw [List.foldl_cons, ih, List.map_cons, List.sum_cons]
    ring

/-! ## Unfolding the aggregate record -/

theorem classAverage_fields {results : List AnalysisResult} {r : AnalysisResult}
    (h : calculateClassAverage results = .ok r) :
    r.subjects = avgSubjectsOf results ∧
    r.percentage = calculateAverageScore (avgSubjectsOf results) ∧
    r.totalObtained =
      (jsRound ((results.map AnalysisResult.totalObtained).sum / results.length) : ℚ) ∧
    r.totalPossible =
      (jsRound ((results.map AnalysisResult.totalPossible).sum / results.length) : ℚ) ∧
    results.length ≠ 0 := by
  by_cases hn : results.length = 0
  · rw [calculateClassAverage, if_pos hn] at h
    exact absurd h (by simp)
  · rw [calculateClassAverage, if_neg hn] at h
    simp only [Except.ok.injEq] at h
    subst h
    refine ⟨rfl, rfl, ?_, ?_, hn⟩
    · show (jsRound ((results.foldl (fun s res => s + res.totalObtained) 0) /
        results.length) : ℚ) = _
      rw [foldl_add_totalObtained, zero_add]
    · show (jsRound ((results.foldl (fun s res => s + res.totalPossible) 0) /
        results.length) : ℚ) = _
      rw [foldl_add_totalPossible, zero_add]

theorem classAverage_isOk {results : List AnalysisResult}
    (h : results.length ≠ 0) :
    ∃ r, calculateClassAverage results = .ok r := by
  rw [calculateClassAverage, if_neg h]
  exact ⟨_, rfl⟩

/-! ## Lookup and membership in the subject map -/

theorem lookup_of_mem {m : List (String × SubjectAcc)} (hnd : (keysOf m).Nodup)
    {kv : String × SubjectAcc} (h : kv ∈ m) : mapGet m kv.1 = some kv.2 := by
  induction m with
  | nil => cases h
  | cons p rest ih =>
    rw [keysOf, List.map_cons, List.nodup_cons] at hnd
    rcases List.mem_cons.mp h with rfl | hm
    · rw [mapGet_cons, if_pos rfl]
    · have hne : p.1 ≠ kv.1 := fun he => hnd.1
        (by rw [he]; exact List.mem_map_of_mem Prod.fst hm)
      rw [mapGet_cons, if_neg hne]
      exact ih hnd.2 hm

theorem mem_of_lookup {m : List (String × SubjectAcc)} {k : String} {v : SubjectAcc}
    (h : mapGet m k = some v) : (k, v) ∈ m := by
  rw [mapGet] at h
  cases hf : m.find? (fun p => p.1 = k) with
  | none => rw [hf] at h; cases h
  | some p =>
    rw [hf] at h
    simp only [Option.map_some', Option.some.injEq] at h
    have hp := List.find?_some hf
    simp only [decide_eq_true_eq] at hp
    have hmem := List.mem_of_find?_eq_some hf
    have hpe : p = (k, v) := Prod.ext hp h
    rw [← hpe]
    exact hmem

theorem mem_map_iff_lookup {m : List (String × SubjectAcc)}
    (hnd : (keysOf m).Nodup) (kv : String × SubjectAcc) :
    kv ∈ m ↔ mapGet m kv.1 = some kv.2 := by
  constructor
  · exact lookup_of_mem hnd
  · intro h
    have := mem_of_lookup h
    rwa [show (kv.1, kv.2) = kv from rfl] at this

/-! ## The averaged subject list and its normalized names -/

theorem avgSubjects_norm_names (results : List AnalysisResult) :
    (avgSubjectsOf results).map (fun e => normalizeKey e.subject) =
      keysOf (buildSubjectMap results) := by
  rw [avgSubjectsOf, keysOf, List.map_map]
  apply List.map_congr_left
  intro kv hkv
  obtain ⟨s, hs⟩ := key_image_buildSubjectMap results kv hkv
  show normalizeKey (capitalizeFirst kv.1) = kv.1
  rw [hs, normalizeKey_capitalizeFirst]

theorem nodup_norm_names (results : List AnalysisResult) :
    ((avgSubjectsOf results).map (fun e => normalizeKey e.subject)).Nodup := by
  rw [avgSubjects_norm_names]
  exact nodup_keys_buildSubjectMap results

theorem mem_avgSubjects_names (results : List AnalysisResult) (k : String) :
    k ∈ (avgSubjectsOf results).map (fun e => normalizeKey e.subject) ↔
      occurrencesAt results k ≠ [] := by
  rw [avgSubjects_norm_names, mem_keys_iff_isSome, mapGet_buildSubjectMap,
    Option.isSome_iff_ne_none, Ne, foldOcc_none_eq_none_iff]

theorem occurrencesAt_ne_nil_iff (results : List AnalysisResult) (k : String) :
    occurrencesAt results k ≠ [] ↔
      ∃ sub ∈ allSubjects results, normalizeKey sub.subject = k := by
  rw [occurrencesAt, Ne, List.filter_eq_nil_iff]
  push_neg
  simp only [decide_eq_true_eq]

theorem mem_allSubjects {sub : SubjectScore} {results : List AnalysisResult} :
    sub ∈ allSubjects results ↔ ∃ res ∈ results, sub ∈ res.subjects := by
  induction results with
  | nil => simp [allSubjects]
  | cons r t ih =>
    show sub ∈ r.subjects ++ allSubjects t ↔ _
    rw [List.mem_append, ih]
    simp [List.mem_cons, or_and_right, exists_or]

theorem mem_avgSubjectsOf {results : List AnalysisResult} {e : SubjectScore} :
    e ∈ avgSubjectsOf results ↔ ∃ kv ∈ buildSubjectMap results,
      e = { subject := capitalizeFirst kv.1
            score := (jsRound (kv.2.total / kv.2.count) : ℚ)
            fullMarks := some kv.2.fullMarks } := by
  rw [avgSubjectsOf, List.mem_map]
  constructor
  · rintro ⟨kv, hkv, rfl⟩
    exact ⟨kv, hkv, rfl⟩
  · rintro ⟨kv, hkv, rfl⟩
    exact ⟨kv, hkv, rfl⟩

/-! ## Per-entry characterization of the accumulator components -/

theorem foldOcc_fullMarks_eq (s : SubjectScore) (t : List SubjectScore) :
    (foldOcc none (s :: t)).map SubjectAcc.fullMarks =
      listMaxQ ((s :: t).map (fun sub => jsOr100 sub.fullMarks)) := by
  have hinit : (stepAcc none s).fullMarks = jsOr100 s.fullMarks := by
    rw [stepAcc_none]
    exact max_self _
  rw [foldOcc_cons, foldOcc_some_eq, Option.map_some', foldl_stepAcc_fullMarks, hinit,
    List.map_cons, listMaxQ_cons]

theorem foldOcc_count_eq (s : SubjectScore) (t : List SubjectScore) :
    (foldOcc none (s :: t)).map SubjectAcc.count = some (s :: t).length := by
  have h1 : (stepAcc none s).count = 1 := rfl
  rw [foldOcc_cons, foldOcc_some_eq, Option.map_some', foldl_stepAcc_count, h1,
    List.length_cons, Nat.add_comm]

theorem foldOcc_total_eq (s : SubjectScore) (t : List SubjectScore) :
    (foldOcc none (s :: t)).map SubjectAcc.total =
      some ((s :: t).map SubjectScore.score).sum := by
  have h1 : (stepAcc none s).total = 0 + s.score := rfl
  rw [foldOcc_cons, foldOcc_some_eq, Option.map_some', foldl_stepAcc_total, h1,
    List.map_cons, List.sum_cons]
  congr 1
  ring

theorem jsOr100_ge (v : ℚ) : v ≤ jsOr100 (some v) := by
  show v ≤ if v = 0 then 100 else v
  by_cases h : v = 0
  · rw [if_pos h, h]
    norm_num
  · rw [if_neg h]

theorem listMaxQ_mem_le {xs : List ℚ} {x : ℚ} (hx : x ∈ xs) :
    ∃ M, listMaxQ xs = some M ∧ x ≤ M := by
  cases xs with
  | nil => cases hx
  | cons y t =>
    refine ⟨t.foldl max y, listMaxQ_cons y t, ?_⟩
    rcases List.mem_cons.mp hx with rfl | hx'
    · exact le_foldl_max t x
    · exact mem_le_foldl_max t y x hx'

/-- The `fullMarks` of every produced averaged entry is the maximum of
`jsOr100` over the occurrences contributing to its normalization key. -/
theorem entry_fullMarks (results : List AnalysisResult) {e : SubjectScore}
    (he : e ∈ avgSubjectsOf results) :
    e.fullMarks = listMaxQ ((occurrencesAt results (normalizeKey e.subject)).map
      (fun sub => jsOr100 sub.fullMarks)) := by
  obtain ⟨kv, hkv, rfl⟩ := mem_avgSubjectsOf.mp he
  obtain ⟨s0, hs0⟩ := key_image_buildSubjectMap results kv hkv
  have hkey : normalizeKey (capitalizeFirst kv.1) = kv.1 := by
    rw [hs0, normalizeKey_capitalizeFirst]
  have hlook : mapGet (buildSubjectMap results) kv.1 = some kv.2 :=
    lookup_of_mem (nodup_keys_buildSubjectMap results) hkv
  rw [mapGet_buildSubjectMap] at hlook
  show some kv.2.fullMarks =
    listMaxQ ((occurrencesAt results (normalizeKey (capitalizeFirst kv.1))).map
      (fun sub => jsOr100 sub.fullMarks))
  rw [hkey]
  cases hocc : occurrencesAt results kv.1 with
  | nil =>
    rw [hocc] at hlook
    cases hlook
  | cons s t =>
    rw [hocc] at hlook
    have hfm := foldOcc_fullMarks_eq s t
    rw [hlook, Option.map_some'] at hfm
    exact hfm

/-! ## The average-score helper, characterized -/

theorem calculateAverageScore_nil : calculateAverageScore [] = 0 := rfl

theorem calculateAverageScore_eq (subjects : List SubjectScore) (h : subjects ≠ []) :
    calculateAverageScore subjects =
      (jsRound ((subjects.map SubjectScore.score).sum / subjects.length) : ℚ) := by
  rw [calculateAverageScore, if_neg (fun hl => h (List.length_eq_zero.mp hl))]
  rw [foldl_add_score, zero_add]

theorem jsRound_nearest (x : ℚ) : |x - (jsRound x : ℚ)| ≤ 1/2 := by
  rw [jsRound, abs_le]
  constructor
  · have h := Int.floor_le (x + 1/2)
    linarith
  · have h := Int.lt_floor_add_one (x + 1/2)
    linarith

/-! ## The orchestrator, characterized -/

theorem collectOutcomes_eq (outcomes : List Outcome) :
    collectOutcomes outcomes = (successesOf outcomes, failuresOf outcomes) := by
  suffices h : ∀ (acc : List AnalysisResult × ℕ),
      outcomes.foldl
        (fun acc o =>
          match o with
          | .fulfilled v => (acc.1 ++ [v], acc.2)
          | .rejected _ => (acc.1, acc.2 + 1)) acc =
        (acc.1 ++ successesOf outcomes, acc.2 + failuresOf outcomes) by
    rw [collectOutcomes, h ([], 0)]
    simp
  induction outcomes with
  | nil =>
    intro acc
    simp [successesOf, failuresOf]
  | cons o t ih =>
    intro acc
    cases o with
    | fulfilled v =>
      rw [List.foldl_cons]
      show t.foldl _ (acc.1 ++ [v], acc.2) = _
      rw [ih]
      simp [successesOf, failuresOf]
    | rejected reason =>
      rw [List.foldl_cons]
      show t.foldl _ (acc.1, acc.2 + 1) = _
      rw [ih]
      simp only [successesOf, failuresOf, Prod.mk.injEq]
      exact ⟨trivial, by omega⟩

theorem handleAnalyzeWith_success
    (aggregate : List AnalysisResult → Except String AnalysisResult)
    (s0 : AppState) (outcomes : List Outcome)
    (h : successesOf outcomes ≠ []) {avg : AnalysisResult}
    (hagg : aggregate (successesOf outcomes) = .ok avg) :
    handleAnalyzeWith aggregate s0 outcomes =
      { results := successesOf outcomes
        activeResultIndex := -1
        classAverageData := some avg
        processingState :=
          ⟨.success,
            if failuresOf outcomes > 0 then
              some (mixedOutcomeMessage (successesOf outcomes).length
                (failuresOf outcomes))
            else none⟩ } := by
  have hpos : (successesOf outcomes).length > 0 :=
    Nat.pos_of_ne_zero (fun hl => h (List.length_eq_zero.mp hl))
  simp only [handleAnalyzeWith, collectOutcomes_eq]
  rw [if_pos hpos, hagg]

theorem handleAnalyzeWith_failure
    (aggregate : List AnalysisResult → Except String AnalysisResult)
    (s0 : AppState) (outcomes : List Outcome) (h : successesOf outcomes = []) :
    handleAnalyzeWith aggregate s0 outcomes =
      { results := []
        activeResultIndex := s0.activeResultIndex
        classAverageData := none
        processingState := ⟨.error, some batchFailureMessage⟩ } := by
  simp only [handleAnalyzeWith, collectOutcomes_eq, h]
  rw [if_neg (by simp)]

/-! ## Permutation invariance -/

theorem allSubjects_perm {l1 l2 : List AnalysisResult} (h : l1.Perm l2) :
    (allSubjects l1).Perm (allSubjects l2) := by
  induction h with
  | nil => exact List.Perm.refl _
  | cons x h ih =>
    show (x.subjects ++ allSubjects _).Perm (x.subjects ++ allSubjects _)
    exact ih.append_left x.subjects
  | swap x y l =>
    show (y.subjects ++ (x.subjects ++ allSubjects l)).Perm
      (x.subjects ++ (y.subjects ++ allSubjects l))
    rw [← List.append_assoc, ← List.append_assoc]
    exact List.perm_append_comm.append_right _
  | trans h1 h2 ih1 ih2 => exact ih1.trans ih2

theorem occurrencesAt_perm {l1 l2 : List AnalysisResult} (h : l1.Perm l2)
    (k : String) : (occurrencesAt l1 k).Perm (occurrencesAt l2 k) :=
  (allSubjects_perm h).filter _

theorem foldOcc_perm {s1 s2 : List SubjectScore} (h : s1.Perm s2)
    (acc : Option SubjectAcc) : foldOcc acc s1 = foldOcc acc s2 :=
  h.foldl_eq acc

theorem mapGet_perm {l1 l2 : List AnalysisResult} (h : l1.Perm l2) (k : String) :
    mapGet (buildSubjectMap l1) k = mapGet (buildSubjectMap l2) k := by
  rw [mapGet_buildSubjectMap, mapGet_buildSubjectMap]
  exact foldOcc_perm (occurrencesAt_perm h k) none

theorem nodup_avgSubjects (results : List AnalysisResult) :
    (avgSubjectsOf results).Nodup :=
  (nodup_norm_names results).of_map

theorem mem_buildSubjectMap_perm {l1 l2 : List AnalysisResult} (h : l1.Perm l2)
    {kv : String × SubjectAcc} (hkv : kv ∈ buildSubjectMap l1) :
    kv ∈ buildSubjectMap l2 := by
  have hl := lookup_of_mem (nodup_keys_buildSubjectMap l1) hkv
  rw [mapGet_perm h kv.1] at hl
  exact (mem_map_iff_lookup (nodup_keys_buildSubjectMap l2) kv).mpr hl

theorem avgSubjects_perm {l1 l2 : List AnalysisResult} (h : l1.Perm l2) :
    (avgSubjectsOf l1).Perm (avgSubjectsOf l2) := by
  rw [List.perm_ext_iff_of_nodup (nodup_avgSubjects l1) (nodup_avgSubjects l2)]
  intro e
  rw [mem_avgSubjectsOf, mem_avgSubjectsOf]
  constructor
  · rintro ⟨kv, hkv, rfl⟩
    exact ⟨kv, mem_buildSubjectMap_perm h hkv, rfl⟩
  · rintro ⟨kv, hkv, rfl⟩
    exact ⟨kv, mem_buildSubjectMap_perm h.symm hkv, rfl⟩

theorem calculateAverageScore_perm {s1 s2 : List SubjectScore} (h : s1.Perm s2) :
    calculateAverageScore s1 = calculateAverageScore s2 := by
  by_cases hn : s1 = []
  · subst hn
    rw [h.symm.eq_nil]
  · have hn2 : s2 ≠ [] := fun he => hn (List.Perm.eq_nil (he ▸ h))
    rw [calculateAverageScore_eq s1 hn, calculateAverageScore_eq s2 hn2,
      h.length_eq, (h.map SubjectScore.score).sum_eq]

/-! ## Congruence in the subject lists and totals only -/

theorem allSubjects_congr {l1 l2 : List AnalysisResult}
    (h : l1.map AnalysisResult.subjects = l2.map AnalysisResult.subjects) :
    allSubjects l1 = allSubjects l2 := by
  induction l1 generalizing l2 with
  | nil =>
    cases l2 with
    | nil => rfl
    | cons r2 t2 => simp at h
  | cons r t ih =>
    cases l2 with
    | nil => simp at h
    | cons r2 t2 =>
      simp only [List.map_cons, List.cons.injEq] at h
      show r.subjects ++ allSubjects t = r2.subjects ++ allSubjects t2
      rw [h.1, ih h.2]

theorem avgSubjectsOf_congr {l1 l2 : List AnalysisResult}
    (h : l1.map AnalysisResult.subjects = l2.map AnalysisResult.subjects) :
    avgSubjectsOf l1 = avgSubjectsOf l2 := by
  rw [avgSubjectsOf, avgSubjectsOf, buildSubjectMap_eq, buildSubjectMap_eq,
    allSubjects_congr h]

/-! ## The claims -/

/-- C1: for every non-empty input list, `calculateClassAverage` produces
exactly one averaged subject entry per distinct normalization key — two
subject names collide exactly when they are identical after trimming and
lowercasing — and the output subject list never contains two entries with
the same normalized name. -/
theorem claim_C1 (results : List AnalysisResult) (r : AnalysisResult)
    (h : calculateClassAverage results = .ok r) :
    (r.subjects.map (fun e => normalizeKey e.subject)).Nodup ∧
    ∀ k : String, k ∈ r.subjects.map (fun e => normalizeKey e.subject) ↔
      ∃ res ∈ results, ∃ sub ∈ res.subjects, jsToLower (jsTrim sub.subject) = k := by
  obtain ⟨hsubj, -, -, -, -⟩ := classAverage_fields h
  rw [hsubj]
  refine ⟨nodup_norm_names results, fun k => ?_⟩
  rw [mem_avgSubjects_names, occurrencesAt_ne_nil_iff]
  constructor
  · rintro ⟨sub, hmem, hk⟩
    obtain ⟨res, hres, hsub⟩ := mem_allSubjects.mp hmem
    exact ⟨res, hres, sub, hsub, hk⟩
  · rintro ⟨res, hres, sub, hsub, hk⟩
    exact ⟨sub, mem_allSubjects.mpr ⟨res, hres, hsub⟩, hk⟩

/-- C2 (counterexample): the claim "fullMarks equals the maximum over all
contributing SubjectScores of (the contributor's fullMarks when present,
100 when fullMarks is absent)" fails on the input `[c2Student]`, whose
first occurrence carries a present `fullMarks` of `0`: the code's `|| 100`
treats the present `0` as absent, so the produced group fullMarks is `100`
while the claim's maximum of the present values is `50`. -/
theorem claim_C2_counterexample :
    (calculateClassAverage [c2Student]).toOption.map
        (fun r => r.subjects.map SubjectScore.fullMarks) = some [some 100] ∧
    listMaxQ ((occurrencesAt [c2Student] "math").map
        (fun sub => specDefault sub.fullMarks)) = some 50 ∧
    (some [some (100:ℚ)] : Option (List (Option ℚ))) ≠ some [some 50] := by
  refine ⟨?_, by decide, by decide⟩
  decide

/-- C2 (amended): for every non-empty input list and every averaged entry,
the entry's `fullMarks` equals the maximum over all contributing
SubjectScores of (the contributor's fullMarks when present and nonzero,
100 when it is absent or zero — JavaScript's `fullMarks || 100`), and is
therefore never less than any contributor's present `fullMarks` value. -/
theorem claim_C2_amended (results : List AnalysisResult) (r : AnalysisResult)
    (h : calculateClassAverage results = .ok r) :
    ∀ e ∈ r.subjects,
      e.fullMarks = listMaxQ ((occurrencesAt results (normalizeKey e.subject)).map
        (fun sub => jsOr100 sub.fullMarks)) ∧
      ∀ sub ∈ occurrencesAt results (normalizeKey e.subject), ∀ v : ℚ,
        sub.fullMarks = some v → ∃ mv, e.fullMarks = some mv ∧ v ≤ mv := by
  obtain ⟨hsubj, -, -, -, -⟩ := classAverage_fields h
  rw [hsubj]
  intro e he
  refine ⟨entry_fullMarks results he, ?_⟩
  intro sub hsub v hv
  have hf : jsOr100 sub.fullMarks ∈ (occurrencesAt results (normalizeKey e.subject)).map
      (fun sub => jsOr100 sub.fullMarks) := List.mem_map_of_mem _ hsub
  obtain ⟨M, hM, hle⟩ := listMaxQ_mem_le hf
  refine ⟨M, ?_, ?_⟩
  · rw [entry_fullMarks results he, hM]
  · calc v ≤ jsOr100 (some v) := jsOr100_ge v
      _ = jsOr100 sub.fullMarks := by rw [hv]
      _ ≤ M := hle

/-- C3: for every submitted batch, per-image failures are captured rather
than propagated: with at least one success the orchestrator ends in the
success state carrying exactly the successful results in input order,
the aggregate record, and a failure count equal to the number of failed
calls; with zero successes it ends in the distinct batch-level error state,
and the aggregation function is never consulted. -/
theorem claim_C3 (s0 : AppState) (outcomes : List Outcome) (hne : outcomes ≠ []) :
    (successesOf outcomes ≠ [] →
      (handleAnalyze s0 outcomes).processingState.status = .success ∧
      (handleAnalyze s0 outcomes).results = successesOf outcomes ∧
      (handleAnalyze s0 outcomes).classAverageData.isSome ∧
      (failuresOf outcomes > 0 →
        (handleAnalyze s0 outcomes).processingState.message =
          some (mixedOutcomeMessage (successesOf outcomes).length
            (failuresOf outcomes))) ∧
      collectOutcomes outcomes = (successesOf outcomes, failuresOf outcomes)) ∧
    (successesOf outcomes = [] →
      (handleAnalyze s0 outcomes).processingState.status = .error ∧
      (handleAnalyze s0 outcomes).processingState.message = some batchFailureMessage ∧
      (handleAnalyze s0 outcomes).results = [] ∧
      (handleAnalyze s0 outcomes).classAverageData = none ∧
      ∀ f g : List AnalysisResult → Except String AnalysisResult,
        handleAnalyzeWith f s0 outcomes = handleAnalyzeWith g s0 outcomes) := by
  constructor
  · intro hs
    have hlen : (successesOf outcomes).length ≠ 0 :=
      fun hl => hs (List.length_eq_zero.mp hl)
    obtain ⟨avg, havg⟩ := classAverage_isOk hlen
    have hH := handleAnalyzeWith_success calculateClassAverage s0 outcomes hs havg
    rw [show handleAnalyze s0 outcomes =
      handleAnalyzeWith calculateClassAverage s0 outcomes from rfl, hH]
    refine ⟨rfl, rfl, rfl, fun hf => ?_, collectOutcomes_eq outcomes⟩
    show (if failuresOf outcomes > 0 then
        some (mixedOutcomeMessage (successesOf outcomes).length (failuresOf outcomes))
      else none) = _
    rw [if_pos hf]
  · intro hs
    have hH := handleAnalyzeWith_failure calculateClassAverage s0 outcomes hs
    rw [show handleAnalyze s0 outcomes =
      handleAnalyzeWith calculateClassAverage s0 outcomes from rfl, hH]
    refine ⟨rfl, rfl, rfl, rfl, fun f g => ?_⟩
    rw [handleAnalyzeWith_failure f s0 outcomes hs,
      handleAnalyzeWith_failure g s0 outcomes hs]

/-- C4: the two-student end-to-end scenario — `{Math: 80/100, Science: 90/100}`
and `{math: 60 with absent fullMarks, Science: 70/100}` — aggregates to
exactly the entries "Math" 70/100 and "Science" 80/100 with an overall
average percentage of 75. -/
theorem claim_C4 :
    (calculateClassAverage [c4Student1, c4Student2]).toOption.map
        (fun r => (r.subjects, r.percentage)) =
      some ([{ subject := "Math", score := 70, fullMarks := some 100 },
             { subject := "Science", score := 80, fullMarks := some 100 }], 75) := by
  simp +decide [calculateClassAverage, avgSubjectsOf, buildSubjectMap, processSubject,
    mapGet, mapSet, normalizeKey, jsToLower, jsTrim, jsTrimList, jsOr100,
    calculateAverageScore, c4Student1, c4Student2, Except.toOption]
  norm_num [jsRound, Int.floor_eq_iff]

/-- C5: the aggregate's `percentage` is the rounded mean of the scores of the
newly built averaged subject list (`calculateAverageScore` applied to
`avgSubjects`), and depends only on the inputs' subject lists — not on their
`totalObtained`/`totalPossible` fields. -/
theorem claim_C5 (results : List AnalysisResult) (r : AnalysisResult)
    (h : calculateClassAverage results = .ok r) :
    r.percentage = calculateAverageScore r.subjects ∧
    ∀ (results' : List AnalysisResult) (r' : AnalysisResult),
      results'.map AnalysisResult.subjects = results.map AnalysisResult.subjects →
      calculateClassAverage results' = .ok r' →
      r'.percentage = r.percentage := by
  obtain ⟨hsubj, hperc, -, -, -⟩ := classAverage_fields h
  constructor
  · rw [hperc, hsubj]
  · intro results' r' hmap h'
    obtain ⟨-, hperc', -, -, -⟩ := classAverage_fields h'
    rw [hperc, hperc', avgSubjectsOf_congr hmap]

/-- C6: the aggregate's `totalObtained` is the round of the mean of the
inputs' `totalObtained` fields, similarly for `totalPossible`, and neither
is recomputed from the averaged per-subject list: they depend only on the
inputs' total fields. -/
theorem claim_C6 (results : List AnalysisResult) (r : AnalysisResult)
    (h : calculateClassAverage results = .ok r) :
    r.totalObtained =
      (jsRound ((results.map AnalysisResult.totalObtained).sum / results.length) : ℚ) ∧
    r.totalPossible =
      (jsRound ((results.map AnalysisResult.totalPossible).sum / results.length) : ℚ) ∧
    ∀ (results' : List AnalysisResult) (r' : AnalysisResult),
      results'.map AnalysisResult.totalObtained =
        results.map AnalysisResult.totalObtained →
      results'.map AnalysisResult.totalPossible =
        results.map AnalysisResult.totalPossible →
      calculateClassAverage results' = .ok r' →
      r'.totalObtained = r.totalObtained ∧ r'.totalPossible = r.totalPossible := by
  obtain ⟨-, -, hto, htp, -⟩ := classAverage_fields h
  refine ⟨hto, htp, ?_⟩
  intro results' r' h1 h2 h'
  obtain ⟨-, -, hto', htp', -⟩ := classAverage_fields h'
  have hlen : results'.length = results.length := by
    have := congrArg List.length h1
    simpa using this
  constructor
  · rw [hto, hto', h1, hlen]
  · rw [htp, htp', h2, hlen]

/-- C8: aggregation is invariant under permutation of the input list — the
per-key accumulators, the averaged subject entries (up to display order),
the totals and the percentage all agree between the two runs. -/
theorem claim_C8 (results results' : List AnalysisResult) (r r' : AnalysisResult)
    (hp : results.Perm results')
    (h : calculateClassAverage results = .ok r)
    (h' : calculateClassAverage results' = .ok r') :
    r.subjects.Perm r'.subjects ∧
    (∀ k, mapGet (buildSubjectMap results) k = mapGet (buildSubjectMap results') k) ∧
    r.totalObtained = r'.totalObtained ∧
    r.totalPossible = r'.totalPossible ∧
    r.percentage = r'.percentage := by
  obtain ⟨hsubj, hperc, hto, htp, -⟩ := classAverage_fields h
  obtain ⟨hsubj', hperc', hto', htp', -⟩ := classAverage_fields h'
  have hsp : (avgSubjectsOf results).Perm (avgSubjectsOf results') :=
    avgSubjects_perm hp
  refine ⟨by rw [hsubj, hsubj']; exact hsp, mapGet_perm hp, ?_, ?_, ?_⟩
  · rw [hto, hto', (hp.map AnalysisResult.totalObtained).sum_eq, hp.length_eq]
  · rw [htp, htp', (hp.map AnalysisResult.totalPossible).sum_eq, hp.length_eq]
  · rw [hperc, hperc']
    exact calculateAverageScore_perm hsp

/-- C7: `calculateClassAverage` fails (throws) exactly on the empty input —
the `InvalidInput` contract violation — returns a record on every non-empty
input, and is unreachable in its failing branch under the orchestrator's
at-least-one-success precondition. -/
theorem claim_C7 :
    calculateClassAverage [] = .error "No results to average" ∧
    (∀ results : List AnalysisResult, results ≠ [] →
      ∃ r, calculateClassAverage results = .ok r) ∧
    (∀ (s0 : AppState) (outcomes : List Outcome), successesOf outcomes ≠ [] →
      ∃ avg, (handleAnalyze s0 outcomes).classAverageData = some avg) := by
  refine ⟨rfl, fun results h =>
    classAverage_isOk (fun hl => h (List.length_eq_zero.mp hl)), ?_⟩
  intro s0 outcomes h
  have hlen : (successesOf outcomes).length ≠ 0 :=
    fun hl => h (List.length_eq_zero.mp hl)
  obtain ⟨avg, havg⟩ := classAverage_isOk hlen
  rw [show handleAnalyze s0 outcomes =
    handleAnalyzeWith calculateClassAverage s0 outcomes from rfl,
    handleAnalyzeWith_success calculateClassAverage s0 outcomes h havg]
  exact ⟨avg, rfl⟩

/-- C9: the average-score helper returns 0 on the empty list, otherwise the
rounded mean of the score fields — a nearest integer of the exact mean —
and on scores [70, 85, 90] it returns 82. -/
theorem claim_C9 :
    calculateAverageScore [] = 0 ∧
    (∀ subjects : List SubjectScore, subjects ≠ [] →
      calculateAverageScore subjects =
        (jsRound ((subjects.map SubjectScore.score).sum / subjects.length) : ℚ) ∧
      |(subjects.map SubjectScore.score).sum / subjects.length -
        calculateAverageScore subjects| ≤ 1/2) ∧
    calculateAverageScore c9Scores = 82 := by
  refine ⟨rfl, fun subjects h => ⟨calculateAverageScore_eq subjects h, ?_⟩, ?_⟩
  · rw [calculateAverageScore_eq subjects h]
    exact jsRound_nearest _
  · simp +decide [calculateAverageScore, c9Scores]
    norm_num [jsRound, Int.floor_eq_iff]

/-- C10: no division by zero on the aggregation path: every accumulator in
the subject map has a positive count when its mean is taken, the totals
divide by a positive input length on the non-throwing branch, and the
average-score helper divides only for non-empty lists. -/
theorem claim_C10 :
    (∀ results : List AnalysisResult, ∀ kv ∈ buildSubjectMap results,
      (0 : ℚ) < kv.2.count) ∧
    (∀ (results : List AnalysisResult) (r : AnalysisResult),
      calculateClassAverage results = .ok r → (0 : ℚ) < results.length) ∧
    (∀ subjects : List SubjectScore, ¬(subjects.length = 0) →
      (0 : ℚ) < subjects.length) := by
  refine ⟨?_, ?_, ?_⟩
  · intro results kv hkv
    have h2 : 0 < kv.2.count := count_pos_buildSubjectMap results kv hkv
    exact_mod_cast h2
  · intro results r h
    obtain ⟨-, -, -, -, hn⟩ := classAverage_fields h
    have h2 : 0 < results.length := Nat.pos_of_ne_zero hn
    exact_mod_cast h2
  · intro subjects h
    have h2 : 0 < subjects.length := Nat.pos_of_ne_zero h
    exact_mod_cast h2

/-! ## Evaluation of the fixtures -/

theorem wCalc : calculateClassAverage [wStudent] = .ok wOut := by
  simp +decide [calculateClassAverage, avgSubjectsOf, buildSubjectMap, processSubject,
    mapGet, mapSet, normalizeKey, jsToLower, jsTrim, jsTrimList, jsOr100,
    calculateAverageScore, wStudent, wOut]
  norm_num [jsRound, Int.floor_eq_iff]

theorem wCalcA : calculateClassAverage [wStudent, wStudent2] = .ok wOutA := by
  simp +decide [calculateClassAverage, avgSubjectsOf, buildSubjectMap, processSubject,
    mapGet, mapSet, normalizeKey, jsToLower, jsTrim, jsTrimList, jsOr100,
    calculateAverageScore, wStudent, wStudent2, wOutA]
  norm_num [jsRound, Int.floor_eq_iff]

theorem wCalcB : calculateClassAverage [wStudent2, wStudent] = .ok wOutB := by
  simp +decide [calculateClassAverage, avgSubjectsOf, buildSubjectMap, processSubject,
    mapGet, mapSet, normalizeKey, jsToLower, jsTrim, jsTrimList, jsOr100,
    calculateAverageScore, wStudent, wStudent2, wOutB]
  norm_num [jsRound, Int.floor_eq_iff]

/-! ## Witnesses -/

/-- Witness for C1 at the concrete input `[wStudent]`. -/
theorem claim_C1_witness :
    (wOut.subjects.map (fun e => normalizeKey e.subject)).Nodup ∧
    ("m" ∈ wOut.subjects.map (fun e => normalizeKey e.subject) ↔
      ∃ res ∈ [wStudent], ∃ sub ∈ res.subjects, jsToLower (jsTrim sub.subject) = "m") :=
  ⟨(claim_C1 [wStudent] wOut wCalc).1, (claim_C1 [wStudent] wOut wCalc).2 "m"⟩

/-- Witness for the amended C2 at the concrete input `[wStudent]`. -/
theorem claim_C2_witness :
    ((⟨"M", 10, some 20⟩ : SubjectScore).fullMarks =
      listMaxQ ((occurrencesAt [wStudent]
        (normalizeKey (⟨"M", 10, some 20⟩ : SubjectScore).subject)).map
        (fun sub => jsOr100 sub.fullMarks))) ∧
    ∃ mv, (⟨"M", 10, some 20⟩ : SubjectScore).fullMarks = some mv ∧ (20:ℚ) ≤ mv :=
  ⟨(claim_C2_amended [wStudent] wOut wCalc ⟨"M", 10, some 20⟩ (by decide)).1,
   (claim_C2_amended [wStudent] wOut wCalc ⟨"M", 10, some 20⟩ (by decide)).2
     ⟨"m", 10, some 20⟩ (by decide) 20 rfl⟩

/-- Witness for C3 at the concrete mixed batch `wOutcomes`. -/
theorem claim_C3_witness :
    (handleAnalyze wInitState wOutcomes).processingState.status = .success ∧
    (handleAnalyze wInitState wOutcomes).results = successesOf wOutcomes ∧
    (handleAnalyze wInitState wOutcomes).classAverageData.isSome ∧
    (failuresOf wOutcomes > 0 →
      (handleAnalyze wInitState wOutcomes).processingState.message =
        some (mixedOutcomeMessage (successesOf wOutcomes).length
          (failuresOf wOutcomes))) ∧
    collectOutcomes wOutcomes = (successesOf wOutcomes, failuresOf wOutcomes) :=
  (claim_C3 wInitState wOutcomes (by decide)).1 (by decide)

/-- Witness for C5 at the concrete input `[wStudent]`. -/
theorem claim_C5_witness :
    wOut.percentage = calculateAverageScore wOut.subjects ∧
    wOut.percentage = wOut.percentage :=
  ⟨(claim_C5 [wStudent] wOut wCalc).1,
   (claim_C5 [wStudent] wOut wCalc).2 [wStudent] wOut rfl wCalc⟩

/-- Witness for C6 at the concrete input `[wStudent]`. -/
theorem claim_C6_witness :
    wOut.totalObtained =
      (jsRound ((([wStudent].map AnalysisResult.totalObtained).sum) /
        (([wStudent] : List AnalysisResult).length : ℚ)) : ℚ) ∧
    wOut.totalPossible =
      (jsRound ((([wStudent].map AnalysisResult.totalPossible).sum) /
        (([wStudent] : List AnalysisResult).length : ℚ)) : ℚ) ∧
    (wOut.totalObtained = wOut.totalObtained ∧
     wOut.totalPossible = wOut.totalPossible) :=
  ⟨(claim_C6 [wStudent] wOut wCalc).1, (claim_C6 [wStudent] wOut wCalc).2.1,
   (claim_C6 [wStudent] wOut wCalc).2.2 [wStudent] wOut rfl rfl wCalc⟩

/-- Witness for C7: a non-empty input and a batch with one success. -/
theorem claim_C7_witness :
    (∃ r, calculateClassAverage [wStudent] = .ok r) ∧
    (∃ avg, (handleAnalyze wInitState wOutcomes).classAverageData = some avg) :=
  ⟨claim_C7.2.1 [wStudent] (by decide),
   claim_C7.2.2 wInitState wOutcomes (by decide)⟩

/-- Witness for C8 at the two-student input in both orders. -/
theorem claim_C8_witness :
    wOutA.subjects.Perm wOutB.subjects ∧
    (∀ k, mapGet (buildSubjectMap [wStudent, wStudent2]) k =
      mapGet (buildSubjectMap [wStudent2, wStudent]) k) ∧
    wOutA.totalObtained = wOutB.totalObtained ∧
    wOutA.totalPossible = wOutB.totalPossible ∧
    wOutA.percentage = wOutB.percentage :=
  claim_C8 [wStudent, wStudent2] [wStudent2, wStudent] wOutA wOutB
    (List.Perm.swap wStudent2 wStudent []) wCalcA wCalcB

/-- Witness for C9 at the concrete score list [70, 85, 90]. -/
theorem claim_C9_witness :
    calculateAverageScore c9Scores =
      (jsRound ((c9Scores.map SubjectScore.score).sum / c9Scores.length) : ℚ) ∧
    |(c9Scores.map SubjectScore.score).sum / c9Scores.length -
      calculateAverageScore c9Scores| ≤ 1/2 :=
  claim_C9.2.1 c9Scores (by decide)

/-- Witness for C10 at concrete inputs. -/
theorem claim_C10_witness :
    ((0:ℚ) < ((("m", (⟨10, 1, 20⟩ : SubjectAcc)) : String × SubjectAcc).2.count : ℚ)) ∧
    ((0:ℚ) < (([wStudent] : List AnalysisResult).length : ℚ)) ∧
    ((0:ℚ) < ((wStudent.subjects).length : ℚ)) :=
  ⟨claim_C10.1 [wStudent] ("m", ⟨10, 1, 20⟩)
    (by
      simp +decide [buildSubjectMap, processSubject, mapGet, mapSet, normalizeKey,
        jsToLower, jsTrim, jsTrimList, jsOr100, wStudent]),
   claim_C10.2.1 [wStudent] wOut wCalc,
   claim_C10.2.2 wStudent.subjects (by decide)⟩
